import Mathlib

/-!
# go-crud-htmx: the user CRUD handlers of `main.go`

A shallow embedding of the request handlers of `main.go` and of the part of
the `github.com/jinzhu/gorm` (v1) API they call, followed by theorems about
them.

The program keeps no state of its own. All state is the `users` table of the
SQLite file behind the `*gorm.DB` handle, so every handler is a function from
the table before the request to the table after it and the response written.

Three facts about the libraries the program runs on decide several results
below and are stated here once.

* Every `*gorm.DB` method used by the program (`Find`, `First`, `Create`,
  `Save`, `Delete`) works on a clone of its receiver and returns that clone.
  An error is recorded in the `Error` field of the clone. The receiver is not
  written. The handlers drop the returned handle and read `db.Error` of the
  handle they were given.
* `Delete` on a value whose primary key is blank adds no primary-key condition
  to the statement, which then reaches every row that is not yet deleted.
* A rowid is a signed 64-bit integer and the `ID` field a Go `uint`. An `ID` of
  2^63 or more is stored as a negative rowid, a row with a negative rowid cannot
  be read back into a `User`, and AUTOINCREMENT assigns no rowid once
  2^63 - 1 has been used.
-/

namespace GoCrudHtmx

/-! ## Data model -/

/-- The `User` struct with the embedded `gorm.Model`. `ID` and `DeletedAt` come
from `gorm.Model`; they carry no `json` tag and are therefore filled by
`BindJSON` from the keys `ID` and `DeletedAt` of a request body. `DeletedAt` is
a time, kept as a number. `CreatedAt` and `UpdatedAt` are written by the
library and read by no handler; they are not carried. `ID` is a Go `uint`: a
value the program holds is below 2^64. -/
structure User where
  ID : Nat := 0
  DeletedAt : Option Nat := none
  Name : String := ""
  Email : String := ""
  Password : String := ""
deriving DecidableEq, Repr, Inhabited

/-- The `UserResponse` struct. -/
structure UserResponse where
  ID : Nat := 0
  Name : String := ""
  Email : String := ""
deriving DecidableEq, Repr, Inhabited

/-- A Go slice value as far as the program can tell slices apart: the nil slice
or a slice with a sequence of elements, which may be empty. -/
inductive Slice (α : Type) where
  | nil : Slice α
  | mk (elems : List α) : Slice α
deriving DecidableEq, Repr

/-- Go's `append(s, x)`: appending to the nil slice allocates. -/
def Slice.append {α : Type} : Slice α → α → Slice α
  | Slice.nil, x => Slice.mk [x]
  | Slice.mk xs, x => Slice.mk (xs ++ [x])

/-- The elements of a slice; the nil slice has none. -/
def Slice.toList {α : Type} : Slice α → List α
  | Slice.nil => []
  | Slice.mk xs => xs

/-- JSON values as read and written by `encoding/json`: `num n` is the integer
literal of `n`; other number literals are not represented. -/
inductive JSON where
  | null : JSON
  | bool (b : Bool) : JSON
  | num (n : Nat) : JSON
  | str (s : String) : JSON
  | arr (items : List JSON) : JSON
  | obj (fields : List (String × JSON)) : JSON

/-- The value `gin.H{key: value}` with one string entry. -/
def H (key value : String) : JSON :=
  JSON.obj [(key, JSON.str value)]

/-- Encoding of a `UserResponse` by its `json` tags. -/
def UserResponse.toJSON (u : UserResponse) : JSON :=
  JSON.obj [("id", JSON.num u.ID), ("name", JSON.str u.Name), ("email", JSON.str u.Email)]

/-- Encoding of a `[]UserResponse`: a nil slice is written as `null`, any other
slice as an array. -/
def marshalUserResponses : Slice UserResponse → JSON
  | Slice.nil => JSON.null
  | Slice.mk xs => JSON.arr (xs.map UserResponse.toJSON)

/-- What `c.JSON(status, body)` writes. -/
structure Response where
  status : Nat
  body : JSON

/-- The part of a `gin.Context` a handler reads: the `Content-Type` header and
what `c.BindJSON` decodes the body to, `none` when decoding fails. -/
structure Context where
  contentType : String
  body : Option User

/-- The bound 2^64 of a Go `uint`. -/
def uintLimit : Nat := 18446744073709551616

/-- Case folding of one character of an object key as `encoding/json` matches
keys with field names: ASCII letters without case, the long s as `s` and the
Kelvin sign as `k`. -/
def foldChar (c : Char) : Char :=
  if c = Char.ofNat 383 then 's'
  else if c = Char.ofNat 8490 then 'k'
  else c.toLower

/-- An object key folded for matching. -/
def foldName (key : String) : List Char := key.data.map foldChar

/-- Decoding of one member of a JSON object into the `User` being filled, `none`
when the value does not fit the field. The fields are those of `User` with the
promoted fields of `gorm.Model`; a key that matches no field is skipped and
`null` leaves a field that is not a pointer as it is. The reading of a time
string is the parameter `parseTime`. -/
def bindField (parseTime : String → Option Nat) (user : User) (key : String) (v : JSON) :
    Option User :=
  let k := foldName key
  if k = "name".data then
    match v with
    | JSON.str s => some { user with Name := s }
    | JSON.null => some user
    | _ => none
  else if k = "email".data then
    match v with
    | JSON.str s => some { user with Email := s }
    | JSON.null => some user
    | _ => none
  else if k = "password".data then
    match v with
    | JSON.str s => some { user with Password := s }
    | JSON.null => some user
    | _ => none
  else if k = "id".data then
    match v with
    | JSON.num n => if n < uintLimit then some { user with ID := n } else none
    | JSON.null => some user
    | _ => none
  else if k = "deletedat".data then
    match v with
    | JSON.str s => (parseTime s).map (fun time => { user with DeletedAt := some time })
    | JSON.null => some { user with DeletedAt := none }
    | _ => none
  else if k = "createdat".data ∨ k = "updatedat".data then
    match v with
    | JSON.str s => (parseTime s).map (fun _ => user)
    | JSON.null => some user
    | _ => none
  else some user

/-- What `c.BindJSON(&user)` decodes a JSON value to, starting from the
zero-valued `User`: the members of an object are decoded in order, `null`
decodes to the zero value, and no other value decodes into a struct. -/
def bindJSON (parseTime : String → Option Nat) : JSON → Option User
  | JSON.obj fields =>
    fields.foldlM (fun user member => bindField parseTime user member.1 member.2) {}
  | JSON.null => some {}
  | _ => none

/-- The value of a member of a JSON object, `none` when the key is absent or the
value is not an object. -/
def JSON.member : JSON → String → Option JSON
  | JSON.obj fields, key => fields.lookup key
  | _, _ => none

/-- A create or update request as it arrives: the `Content-Type` header and the
JSON value the body begins with, `none` when it begins with none. -/
structure Request where
  contentType : String
  body : Option JSON

/-- The `gin.Context` a handler sees for a request. -/
def Request.toContext (parseTime : String → Option Nat) (r : Request) : Context :=
  { contentType := r.contentType, body := r.body.bind (bindJSON parseTime) }

/-! ## The datastore -/

/-- The bound 2^63 of a rowid. -/
def rowidLimit : Nat := 9223372036854775808

/-- The `users` table: its rows in rowid order and the counter SQLite keeps for
an `integer primary key autoincrement` column. A row is kept as the `User`
whose columns it holds, so its `ID` is the rowid as a `uint`: an `ID` of 2^63
or more stands for the negative rowid `ID - 2^64`. -/
structure Table where
  rows : List User
  seq : Nat
deriving DecidableEq, Repr

/-- The schema constraints of the table: rowids are assigned from 1, the
primary key is unique, and `email` carries a unique index. -/
def Table.Valid (t : Table) : Prop :=
  (∀ r ∈ t.rows, r.ID ≠ 0) ∧ (t.rows.map User.ID).Nodup ∧ (t.rows.map User.Email).Nodup

instance (t : Table) : Decidable t.Valid := by
  unfold Table.Valid; infer_instance

/-- The fields of a `*gorm.DB` handle the program reads or the library reports
through. -/
structure DB where
  Error : Option String := none
  RowsAffected : Nat := 0
deriving DecidableEq, Repr

/-- The handle `initDB` returns: `gorm.Open` succeeded (the program exits
otherwise) and no error is recorded on it. -/
def initDB : DB := { Error := none, RowsAffected := 0 }

/-- The soft-delete scope `deleted_at IS NULL`. -/
def User.live (u : User) : Bool := u.DeletedAt.isNone

/-- The rowid of a stored row, a signed 64-bit integer. -/
def User.rowid (u : User) : Int :=
  if u.ID < rowidLimit then (u.ID : Int) else (u.ID : Int) - (uintLimit : Int)

/-- Reading a row into a fresh `User`, as `Find` does for each row: a negative
rowid does not convert to a `uint`, the scan of the row stops at its first
column and the `User` keeps its zero value. -/
def readRow (r : User) : User :=
  if r.ID < rowidLimit then r else {}

/-- The characters the library's numeral pattern takes as blanks. -/
def isBlank (c : Char) : Bool :=
  c == ' ' || c == Char.ofNat 9 || c == Char.ofNat 10 || c == Char.ofNat 12 || c == Char.ofNat 13

/-- A list of characters without its leading and trailing blanks. -/
def trimBlanks (cs : List Char) : List Char :=
  ((cs.dropWhile isBlank).reverse.dropWhile isBlank).reverse

/-- Value of a string of decimal digits, `none` at the first other character. -/
def digitsValue : List Char → Nat → Option Nat
  | [], acc => some acc
  | c :: cs, acc => if c.isDigit then digitsValue cs (10 * acc + (c.toNat - 48)) else none

/-- The number an `:id` path segment spells when it is a decimal numeral, blanks
around it allowed: the strings the library compares with the primary key. -/
def numeral (id : String) : Option Nat :=
  if trimBlanks id.data = [] then none else digitsValue (trimBlanks id.data) 0

/-- The primary key an `:id` path segment names: the number of a numeral below
2^63. A larger numeral equals no rowid. -/
def primaryKey (id : String) : Option Nat :=
  (numeral id).bind (fun k => if k < rowidLimit then some k else none)

/-- An integer literal with an optional sign. -/
def literal (cs : List Char) : Option Int :=
  match cs with
  | [] => none
  | c :: ds =>
    if c = '-' then
      if ds = [] then none else (digitsValue ds 0).map (fun n => -(n : Int))
    else if c = '+' then
      if ds = [] then none else (digitsValue ds 0).map (fun n => (n : Int))
    else (digitsValue (c :: ds) 0).map (fun n => (n : Int))

/-- The truth value SQLite gives a condition that is an integer literal (true
when not zero) or an equality of two integer literals below 2^63 in size;
`none` for any other text. -/
def constant (cs : List Char) : Option Bool :=
  match literal cs with
  | some v => some (v != 0)
  | none =>
    match cs.dropWhile (fun c => c != '=') with
    | [] => none
    | _ :: rhs =>
      match literal (cs.takeWhile (fun c => c != '=')), literal rhs with
      | some a, some b =>
        if a.natAbs < rowidLimit ∧ b.natAbs < rowidLimit then some (a == b) else none
      | _, _ => none

/-- Modelled from the spec: the SQL expression language is not part of the
program. A condition string that is none of the forms read by `numeral` and
`constant` is given what the spec states for a non-numeric id, it behaves as
NotFound: the condition holds of no row. -/
def uninterpreted : Bool := false

/-- The condition `First` adds for its inline string argument. -/
inductive Condition where
  | all : Condition
  | key (k : Nat) : Condition
  | const (b : Bool) : Condition
deriving DecidableEq, Repr

/-- The library's reading of the inline string argument of `First`. A numeral
is compared with the primary key. The empty string adds no condition. Any other
string is put into the statement as SQL text. -/
def condition (id : String) : Condition :=
  match numeral id with
  | some k => if k < rowidLimit then Condition.key k else Condition.const false
  | none =>
    if id.data = [] then Condition.all
    else
      match constant id.data with
      | some b => Condition.const b
      | none => Condition.const uninterpreted

/-- Whether a condition holds of a row. -/
def Condition.holds : Condition → User → Bool
  | Condition.all, _ => true
  | Condition.key k, r => r.ID == k
  | Condition.const b, _ => b

/-- The row with the least rowid, the first under `ORDER BY id`. -/
def firstRow : List User → Option User
  | [] => none
  | r :: rs =>
    match firstRow rs with
    | none => some r
    | some m => if m.rowid < r.rowid then some m else some r

/-- The largest rowid in use, 0 when none is positive. -/
def maxID (rows : List User) : Nat :=
  rows.foldr (fun r m => if r.ID < rowidLimit then max r.ID m else m) 0

/-- Whether the table has used the largest rowid, 2^63 - 1. AUTOINCREMENT then
assigns no further rowid. -/
def Table.full (t : Table) : Bool := decide (rowidLimit ≤ max t.seq (maxID t.rows) + 1)

/-- The rowid AUTOINCREMENT assigns next: one more than both the largest rowid
in the table and the largest ever assigned. -/
def nextID (t : Table) : Nat := max t.seq (maxID t.rows) + 1

/-- Insertion of a row at its place in rowid order. -/
def insertRow (u : User) : List User → List User
  | [] => [u]
  | r :: rs => if u.rowid < r.rowid then u :: r :: rs else r :: insertRow u rs

/-- `db.Find(&users)`: every row in the soft-delete scope, in table order, each
read into a fresh `User`. A row that cannot be read leaves an error on the
clone and its zero-valued `User` in the result; the rows after it are read. -/
def DB.Find (s : DB) (t : Table) : DB × List User :=
  if s.Error.isSome then (s, [])
  else
    let found := t.rows.filter User.live
    ({ s with
        Error := if found.all (fun r => decide (r.ID < rowidLimit)) then none
          else some "sql: Scan error on column index 0",
        RowsAffected := found.length },
      found.map readRow)

/-- `db.First(&out, id)`: of the rows in the soft-delete scope of which the
condition of `id` holds, the one with the least rowid, read into `out`. When
there is none the clone carries `record not found` and `out` is left as it
was. When the row cannot be read the clone carries the scan error and only the
`ID` of `out` is reset. -/
def DB.First (s : DB) (t : Table) (out : User) (id : String) : DB × User :=
  if s.Error.isSome then (s, out)
  else
    match firstRow (t.rows.filter (fun r => r.live && (condition id).holds r)) with
    | some r =>
      if r.ID < rowidLimit then ({ s with RowsAffected := 1 }, r)
      else
        ({ s with Error := some "sql: Scan error on column index 0", RowsAffected := 1 },
          { out with ID := 0 })
    | none => ({ s with Error := some "record not found", RowsAffected := 0 }, out)

/-- `db.Create(&value)`: one INSERT. A blank primary key is assigned by the
table, which fails when the largest rowid has been used; a given one is kept.
The statement fails, inserting nothing, when the primary key or the email is
already held by a row, deleted or not. The counter of the table follows the
positive rowids. -/
def DB.Create (s : DB) (t : Table) (value : User) : DB × Table × User :=
  if s.Error.isSome then (s, t, value)
  else if value.ID = 0 ∧ t.full = true then
    ({ s with Error := some "database or disk is full" }, t, value)
  else
    let id := if value.ID = 0 then nextID t else value.ID
    if t.rows.any (fun r => r.ID == id) then
      ({ s with Error := some "UNIQUE constraint failed: users.id" }, t, value)
    else if t.rows.any (fun r => r.Email == value.Email) then
      ({ s with Error := some "UNIQUE constraint failed: users.email" }, t, value)
    else
      let u := { value with ID := id }
      ({ s with RowsAffected := 1 },
        { rows := insertRow u t.rows, seq := if id < rowidLimit then max t.seq id else t.seq },
        u)

/-- `db.Save(&value)`. With a blank primary key it is `Create`. Otherwise one
UPDATE writes every column of `value` to the rows in the soft-delete scope with
its primary key; it fails, changing nothing, when another row holds the email.
When the UPDATE reaches no row the library falls back to `FirstOrCreate`, which
finds no row either and inserts. -/
def DB.Save (s : DB) (t : Table) (value : User) : DB × Table × User :=
  if s.Error.isSome then (s, t, value)
  else if value.ID = 0 then s.Create t value
  else
    let hit := fun (r : User) => r.live && r.ID == value.ID
    let n := (t.rows.filter hit).length
    if n = 0 then s.Create t value
    else if t.rows.any (fun r => r.Email == value.Email && r.ID != value.ID) then
      ({ s with Error := some "UNIQUE constraint failed: users.email" }, t, value)
    else
      ({ s with RowsAffected := n },
        { t with rows := t.rows.map (fun r => if hit r then value else r) }, value)

/-- `db.Delete(&value)` at time `now`: one UPDATE setting `deleted_at` on the
rows in the soft-delete scope. The primary key of `value` is a condition of the
statement only when it is not blank. -/
def DB.Delete (s : DB) (t : Table) (value : User) (now : Nat) : DB × Table :=
  if s.Error.isSome then (s, t)
  else
    let hit := fun (r : User) => r.live && (value.ID == 0 || r.ID == value.ID)
    ({ s with RowsAffected := (t.rows.filter hit).length },
      { t with
        rows := t.rows.map (fun r => if hit r then { r with DeletedAt := some now } else r) })

/-! ## The handlers of `main.go` -/

/-- `fetchUsers`: the loop appends one `UserResponse` per user found to a slice
declared without a value. -/
def fetchUsers (db : DB) (t : Table) : Slice UserResponse :=
  let users := (db.Find t).2
  users.foldl
    (fun userResponses user =>
      userResponses.append { ID := user.ID, Name := user.Name, Email := user.Email })
    Slice.nil

/-- `createUser`. The handle returned by `db.Create` is dropped and the error
test reads `db.Error`. -/
def createUser (db : DB) (t : Table) (c : Context) : Table × Response :=
  if c.contentType ≠ "application/json" then
    (t, ⟨400, H "error" "Invalid content type. Only application/json is accepted"⟩)
  else
    match c.body with
    | none => (t, ⟨400, H "error" "Invalid request body"⟩)
    | some user =>
      if user.Name = "" ∨ user.Email = "" ∨ user.Password = "" then
        (t, ⟨400, H "error" "All fields are required"⟩)
      else
        let t1 := (db.Create t user).2.1
        if db.Error ≠ none then
          (t1, ⟨400, H "error" "Failed to create user"⟩)
        else
          (t1, ⟨200, H "message" "User created"⟩)

/-- `updateUser`: returns the table after the call and the `UserResponse`. -/
def updateUser (db : DB) (t : Table) (c : Context) (id : String) : Table × UserResponse :=
  let user := (db.First t {} id).2
  match c.body with
  | none => (t, {})
  | some newUser =>
    let user := { user with Name := newUser.Name, Email := newUser.Email }
    let saved := db.Save t user
    let t1 := saved.2.1
    let user := saved.2.2
    if db.Error ≠ none then
      (t1, {})
    else
      (t1, { ID := user.ID, Name := user.Name, Email := user.Email })

/-- `deleteUser` at time `now`: returns the table after the call. Both branches
of the error test leave the same table. -/
def deleteUser (db : DB) (t : Table) (id : String) (now : Nat) : Table :=
  let user := (db.First t {} id).2
  let t1 := (db.Delete t user now).2
  if db.Error ≠ none then t1 else t1

/-- `fetchUserByID`. -/
def fetchUserByID (db : DB) (t : Table) (id : String) : UserResponse :=
  let user := (db.First t {} id).2
  if db.Error ≠ none then
    {}
  else
    { ID := user.ID, Name := user.Name, Email := user.Email }

/-- `getUsersHandler`. -/
def getUsersHandler (db : DB) (t : Table) : Response :=
  let users := fetchUsers db t
  ⟨200, marshalUserResponses users⟩

/-- `createUserHandler`. -/
def createUserHandler (db : DB) (t : Table) (c : Context) : Table × Response :=
  createUser db t c

/-- `deleteUserHandler` at time `now`. -/
def deleteUserHandler (db : DB) (t : Table) (id : String) (now : Nat) : Table × Response :=
  (deleteUser db t id now, ⟨200, H "message" "User deleted"⟩)

/-! ## Sample data -/

/-- A stored user. -/
def ann : User := { ID := 1, Name := "Ann", Email := "ann@x.com", Password := "p" }

/-- A second stored user. -/
def bob : User := { ID := 2, Name := "Bob", Email := "bob@x.com", Password := "q" }

/-- The table of a fresh database file. -/
def emptyTable : Table := { rows := [], seq := 0 }

/-- A table holding `ann` and `bob`. -/
def twoUsers : Table := { rows := [ann, bob], seq := 2 }

/-- A payload with the three keys `name`, `email` and `password`. -/
def zed : User := { Name := "Zed", Email := "zed@x.com", Password := "z" }

/-- A payload that also carries the key `DeletedAt`. -/
def zedDeleted : User :=
  { Name := "Zed", Email := "zed@x.com", Password := "z", DeletedAt := some 5 }

/-- A payload with the email of the stored user `ann`. -/
def zedAsAnn : User := { Name := "Zed", Email := "ann@x.com", Password := "z" }

/-- A payload that also carries the key `ID`, with the key of `ann`. -/
def zedWithID : User := { ID := 1, Name := "Zed", Email := "zed@x.com", Password := "z" }

/-- A stored user with the largest rowid, 2^63 - 1. -/
def maxUser : User :=
  { ID := 9223372036854775807, Name := "Max", Email := "max@x.com", Password := "m" }

/-- A table that has used the largest rowid. -/
def fullTable : Table := { rows := [ann, maxUser], seq := 9223372036854775807 }

/-- A payload that carries the key `ID` with the value 2^63. -/
def zedHighID : User :=
  { ID := 9223372036854775808, Name := "Zed", Email := "zed@x.com", Password := "z" }

/-- A payload that carries the key `ID` with a value no stored row has. -/
def zedFreshID : User := { ID := 7, Name := "Zed", Email := "zed@x.com", Password := "z" }

/-- The body `{"name": 1}`: well-formed JSON, `email` and `password` missing,
and a `name` that is not a string. -/
def mistypedBody : JSON := JSON.obj [("name", JSON.num 1)]

/-- A JSON create request with the body `mistypedBody`. -/
def mistypedRequest : Request :=
  { contentType := "application/json", body := some mistypedBody }

/-- A request with a JSON body decoded to `user`. -/
def jsonRequest (user : User) : Context :=
  { contentType := "application/json", body := some user }

/-- The projection `fetchUsers` and `fetchUserByID` apply to a `User`. -/
def User.toResponse (u : User) : UserResponse :=
  { ID := u.ID, Name := u.Name, Email := u.Email }

/-! ## Lemmas on slices and on the table operations -/

theorem Slice.toList_append {α : Type} (s : Slice α) (x : α) :
    (s.append x).toList = s.toList ++ [x] := by
  cases s <;> rfl

theorem Slice.toList_foldl_append {α β : Type} (f : β → α) (xs : List β) (s : Slice α) :
    (xs.foldl (fun acc x => acc.append (f x)) s).toList = s.toList ++ xs.map f := by
  induction xs generalizing s with
  | nil => simp
  | cons x xs ih => simp [List.foldl_cons, ih, Slice.toList_append]

theorem fetchUsers_toList (db : DB) (t : Table) :
    (fetchUsers db t).toList = (db.Find t).2.map User.toResponse := by
  unfold fetchUsers
  exact (Slice.toList_foldl_append User.toResponse (db.Find t).2 Slice.nil).trans (by rfl)

theorem initDB_Find (t : Table) :
    (initDB.Find t).2 = (t.rows.filter User.live).map readRow := by
  rfl

theorem fetchUsers_eq_foldl (db : DB) (t : Table) :
    fetchUsers db t = ((db.Find t).2.map User.toResponse).foldl Slice.append Slice.nil := by
  unfold fetchUsers
  rw [List.foldl_map]
  rfl

theorem readRow_password (f : String → String) (u : User) :
    (readRow { u with Password := f u.Password }).toResponse = (readRow u).toResponse := by
  unfold readRow
  by_cases h : u.ID < rowidLimit
  · simp only [h, if_true]; rfl
  · simp only [h, if_false]

theorem Find_map_password (db : DB) (t : Table) (f : String → String) :
    (db.Find { t with rows := t.rows.map (fun u => { u with Password := f u.Password }) }).2.map
        User.toResponse = (db.Find t).2.map User.toResponse := by
  unfold DB.Find
  by_cases hs : db.Error.isSome
  · simp [hs]
  · simp only [hs, Bool.false_eq_true, if_false, List.filter_map, List.map_map]
    have hlive : (User.live ∘ fun u : User => { u with Password := f u.Password }) = User.live := by
      funext u; rfl
    rw [hlive]
    apply List.map_congr_left
    intro u _
    exact readRow_password f u

theorem condition_of_primaryKey (id : String) (k : Nat) (h : primaryKey id = some k) :
    condition id = Condition.key k ∧ k < rowidLimit := by
  unfold primaryKey at h
  cases hn : numeral id with
  | none => rw [hn] at h; exact absurd h (by simp)
  | some n =>
    rw [hn, Option.some_bind] at h
    by_cases hlt : n < rowidLimit
    · rw [if_pos hlt] at h
      have hnk : n = k := Option.some.inj h
      subst hnk
      refine ⟨?_, hlt⟩
      unfold condition
      rw [hn]
      simp only [hlt, if_true]
    · rw [if_neg hlt] at h
      exact absurd h (by simp)

theorem firstRow_mem (rows : List User) (m : User) (h : firstRow rows = some m) : m ∈ rows := by
  induction rows generalizing m with
  | nil => exact absurd h (by simp [firstRow])
  | cons r rs ih =>
    unfold firstRow at h
    cases hrs : firstRow rs with
    | none =>
      rw [hrs] at h
      rw [← Option.some.inj h]
      exact List.mem_cons_self r rs
    | some m0 =>
      rw [hrs] at h
      by_cases hlt : m0.rowid < r.rowid
      · simp only [hlt, if_true] at h
        rw [← Option.some.inj h]
        exact List.mem_cons_of_mem r (ih m0 hrs)
      · simp only [hlt, if_false] at h
        rw [← Option.some.inj h]
        exact List.mem_cons_self r rs

theorem firstRow_isSome (rows : List User) (h : rows ≠ []) : ∃ m, firstRow rows = some m := by
  cases rows with
  | nil => exact absurd rfl h
  | cons r rs =>
    unfold firstRow
    cases firstRow rs with
    | none => exact ⟨r, rfl⟩
    | some m0 =>
      by_cases hlt : m0.rowid < r.rowid
      · exact ⟨m0, by simp only [hlt, if_true]⟩
      · exact ⟨r, by simp only [hlt, if_false]⟩

theorem First_not_found (db : DB) (t : Table) (out : User) (id : String)
    (h : ∀ r ∈ t.rows, r.DeletedAt = none → (condition id).holds r = false) :
    (db.First t out id).2 = out := by
  unfold DB.First
  by_cases hs : db.Error.isSome
  · simp [hs]
  · simp only [hs, Bool.false_eq_true, if_false]
    have hnil : t.rows.filter (fun r => r.live && (condition id).holds r) = [] := by
      rw [List.filter_eq_nil_iff]
      intro r hr hp
      simp only [User.live, Bool.and_eq_true, Option.isNone_iff_eq_none] at hp
      rw [h r hr hp.1] at hp
      exact absurd hp.2 (by simp)
    rw [hnil]
    rfl

theorem First_not_found_key (db : DB) (t : Table) (out : User) (id : String) (k : Nat)
    (hk : primaryKey id = some k) (h : ∀ r ∈ t.rows, r.DeletedAt = none → r.ID ≠ k) :
    (db.First t out id).2 = out := by
  apply First_not_found
  intro r hr hlive
  rw [(condition_of_primaryKey id k hk).1]
  simp only [Condition.holds, beq_eq_false_iff_ne, ne_eq]
  exact h r hr hlive

theorem First_found (t : Table) (out u : User) (id : String)
    (hu : u ∈ t.rows) (hlive : u.DeletedAt = none) (hid : primaryKey id = some u.ID) :
    ∃ r ∈ t.rows, (initDB.First t out id).2 = r ∧ r.ID = u.ID ∧ r.DeletedAt = none := by
  obtain ⟨hcond, hlt⟩ := condition_of_primaryKey id u.ID hid
  have hne : t.rows.filter (fun r => r.live && (condition id).holds r) ≠ [] := by
    intro hnil
    have hmem : u ∈ t.rows.filter (fun r => r.live && (condition id).holds r) := by
      rw [List.mem_filter]
      exact ⟨hu, by simp [User.live, hlive, hcond, Condition.holds]⟩
    rw [hnil] at hmem
    exact List.not_mem_nil u hmem
  obtain ⟨r, hr⟩ := firstRow_isSome _ hne
  have hmem := firstRow_mem _ r hr
  rw [List.mem_filter] at hmem
  have hp := hmem.2
  simp only [User.live, Bool.and_eq_true, Option.isNone_iff_eq_none, hcond, Condition.holds,
    beq_iff_eq] at hp
  refine ⟨r, hmem.1, ?_, hp.2, hp.1⟩
  have hrlt : r.ID < rowidLimit := by rw [hp.2]; exact hlt
  unfold DB.First
  simp only [initDB, Option.isSome_none, Bool.false_eq_true, if_false, hr, hrlt, if_true]

theorem deleteUser_rows (t : Table) (id : String) (now : Nat) :
    (deleteUser initDB t id now).rows =
      t.rows.map (fun r =>
        if r.live && ((initDB.First t {} id).2.ID == 0 || r.ID == (initDB.First t {} id).2.ID)
        then { r with DeletedAt := some now } else r) := by
  rfl

theorem deleteUser_marks (t : Table) (id : String) (now : Nat) (u : User)
    (hu : u ∈ t.rows) (hlive : u.DeletedAt = none) (hid : primaryKey id = some u.ID) :
    ∀ r ∈ (deleteUser initDB t id now).rows, r.ID = u.ID ∨ u.ID = 0 → r.DeletedAt ≠ none := by
  obtain ⟨v, _, hv, hvid, _⟩ := First_found t {} u id hu hlive hid
  intro r hr hrid
  rw [deleteUser_rows, hv, List.mem_map] at hr
  obtain ⟨r0, _, hr0⟩ := hr
  by_cases hhit : (r0.live && (v.ID == 0 || r0.ID == v.ID)) = true
  · rw [if_pos hhit] at hr0
    rw [← hr0]
    simp
  · rw [if_neg hhit] at hr0
    subst hr0
    intro hnone
    apply hhit
    rcases hrid with h | h
    · simp [User.live, hnone, h, hvid]
    · simp [User.live, hnone, h, hvid]

theorem Valid.row_of_ID (t : Table) (hv : t.Valid) (r u : User)
    (hr : r ∈ t.rows) (hu : u ∈ t.rows) (h : r.ID = u.ID) : r = u :=
  List.inj_on_of_nodup_map hv.2.1 hr hu h

theorem First_found_valid (t : Table) (hv : t.Valid) (out u : User) (id : String)
    (hu : u ∈ t.rows) (hlive : u.DeletedAt = none) (hid : primaryKey id = some u.ID) :
    (initDB.First t out id).2 = u := by
  obtain ⟨r, hr, hfirst, hrid, _⟩ := First_found t out u id hu hlive hid
  rw [hfirst]
  exact Valid.row_of_ID t hv r u hr hu hrid

/-- The table `updateUser` leaves for a stored user `u` that is not deleted:
unchanged when another row holds the new email, and otherwise with the name and
email of the row of `u` replaced. -/
theorem updateUser_table (t : Table) (c : Context) (id : String) (u newUser : User)
    (hv : t.Valid) (hu : u ∈ t.rows) (hlive : u.DeletedAt = none)
    (hid : primaryKey id = some u.ID) (hbody : c.body = some newUser) :
    (updateUser initDB t c id).1 =
      if t.rows.any (fun r => r.Email == newUser.Email && r.ID != u.ID) then t
      else { t with rows := t.rows.map (fun r =>
        if r.ID = u.ID then { r with Name := newUser.Name, Email := newUser.Email } else r) } := by
  have hne : u.ID ≠ 0 := hv.1 u hu
  have hcount : (t.rows.filter (fun r => r.live && r.ID == u.ID)).length ≠ 0 := by
    intro h0
    have hmem : u ∈ t.rows.filter (fun r => r.live && r.ID == u.ID) := by
      rw [List.mem_filter]
      exact ⟨hu, by simp [User.live, hlive]⟩
    rw [List.length_eq_zero] at h0
    rw [h0] at hmem
    exact List.not_mem_nil u hmem
  unfold updateUser
  rw [hbody, First_found_valid t hv {} u id hu hlive hid]
  simp only [DB.Save, initDB, Option.isSome_none, Bool.false_eq_true, if_false, hne, hcount,
    ne_eq, not_true_eq_false]
  by_cases hconf : t.rows.any (fun r => r.Email == newUser.Email && r.ID != u.ID) = true
  · simp only [hconf, if_true]
  · simp only [hconf, if_false, Bool.false_eq_true]
    congr 1
    apply List.map_congr_left
    intro r hr
    by_cases hrid : r.ID = u.ID
    · have hru : r = u := Valid.row_of_ID t hv r u hr hu hrid
      subst hru
      simp [User.live, hlive]
    · simp [hrid]

theorem map_rename_ID (rows : List User) (k : Nat) (name email : String) :
    (rows.map (fun r => if r.ID = k then { r with Name := name, Email := email } else r)).map
      User.ID = rows.map User.ID := by
  rw [List.map_map]
  apply List.map_congr_left
  intro r _
  by_cases h : r.ID = k <;> simp [h]

theorem map_rename_Password (rows : List User) (k : Nat) (name email : String) :
    (rows.map (fun r => if r.ID = k then { r with Name := name, Email := email } else r)).map
      User.Password = rows.map User.Password := by
  rw [List.map_map]
  apply List.map_congr_left
  intro r _
  by_cases h : r.ID = k <;> simp [h]

theorem filter_rename_others (rows : List User) (k : Nat) (name email : String) :
    (rows.map (fun r => if r.ID = k then { r with Name := name, Email := email } else r)).filter
      (fun r => r.ID != k) = rows.filter (fun r => r.ID != k) := by
  induction rows with
  | nil => rfl
  | cons r rs ih =>
    by_cases h : r.ID = k
    · simp [h, ih]
    · simp [h, ih]

theorem le_maxID (rows : List User) (r : User) (hr : r ∈ rows) (hlt : r.ID < rowidLimit) :
    r.ID ≤ maxID rows := by
  induction rows with
  | nil => exact absurd hr (List.not_mem_nil r)
  | cons x xs ih =>
    unfold maxID
    rw [List.foldr_cons]
    rcases List.mem_cons.mp hr with h | h
    · subst h
      rw [if_pos hlt]
      exact Nat.le_max_left _ _
    · have hxs : r.ID ≤ maxID xs := ih h
      unfold maxID at hxs
      by_cases hx : x.ID < rowidLimit
      · rw [if_pos hx]
        exact Nat.le_trans hxs (Nat.le_max_right _ _)
      · rw [if_neg hx]
        exact hxs

theorem nextID_lt (t : Table) (hfull : t.full = false) : nextID t < rowidLimit := by
  unfold Table.full at hfull
  unfold nextID
  simpa using hfull

theorem nextID_fresh (t : Table) (hfull : t.full = false) (r : User) (hr : r ∈ t.rows) :
    r.ID ≠ nextID t := by
  have hnext := nextID_lt t hfull
  by_cases hlt : r.ID < rowidLimit
  · have h1 := le_maxID t.rows r hr hlt
    have h2 : maxID t.rows ≤ max t.seq (maxID t.rows) := Nat.le_max_right _ _
    unfold nextID
    omega
  · omega

theorem mem_insertRow (u x : User) (rows : List User) :
    x ∈ insertRow u rows ↔ x = u ∨ x ∈ rows := by
  induction rows with
  | nil => simp [insertRow]
  | cons r rs ih =>
    unfold insertRow
    by_cases h : u.rowid < r.rowid
    · simp [h]
    · simp only [h, if_false, List.mem_cons, ih]
      tauto

/-- The table `createUser` leaves for a payload with the three required fields
and an email no row holds, when the row can be inserted: the payload carries no
primary key and the table is not full, or it carries one no row has. -/
theorem createUser_table (t : Table) (c : Context) (user : User)
    (hct : c.contentType = "application/json") (hbody : c.body = some user)
    (hname : user.Name ≠ "") (hemail : user.Email ≠ "") (hpw : user.Password ≠ "")
    (hid : (user.ID = 0 ∧ t.full = false) ∨ (user.ID ≠ 0 ∧ ∀ r ∈ t.rows, r.ID ≠ user.ID))
    (hfresh : ∀ r ∈ t.rows, r.Email ≠ user.Email) :
    createUser initDB t c =
      ({ rows := insertRow { user with ID := if user.ID = 0 then nextID t else user.ID } t.rows,
         seq := if (if user.ID = 0 then nextID t else user.ID) < rowidLimit
           then max t.seq (if user.ID = 0 then nextID t else user.ID) else t.seq },
        ⟨200, H "message" "User created"⟩) := by
  have hnotfull : ¬ (user.ID = 0 ∧ t.full = true) := by
    rintro ⟨h0, hf⟩
    rcases hid with ⟨_, hnf⟩ | ⟨hne, _⟩
    · rw [hnf] at hf; exact absurd hf (by simp)
    · exact hne h0
  have hnoid : t.rows.any (fun r => r.ID == if user.ID = 0 then nextID t else user.ID) = false := by
    rw [List.any_eq_false]
    intro r hr
    rcases hid with ⟨h0, hnf⟩ | ⟨hne, hfree⟩
    · simpa [h0] using nextID_fresh t hnf r hr
    · simpa [hne] using hfree r hr
  have hnoemail : t.rows.any (fun r => r.Email == user.Email) = false := by
    rw [List.any_eq_false]
    intro r hr
    simpa using hfresh r hr
  unfold createUser
  rw [if_neg (not_not.mpr hct), hbody]
  simp only [hname, hemail, hpw, or_self, if_false, DB.Create, initDB, Option.isSome_none,
    Bool.false_eq_true, hnotfull, hnoid, hnoemail, ne_eq, not_true_eq_false]

/-- On the handle of `initDB` the error branch of `createUser` is never taken:
no request is answered `Failed to create user`. -/
theorem createUser_never_reports_failure (t : Table) (c : Context) :
    (createUser initDB t c).2.body ≠ H "error" "Failed to create user" := by
  unfold createUser
  by_cases hct : c.contentType ≠ "application/json"
  · rw [if_pos hct]
    simp [H]
  · rw [if_neg hct]
    cases c.body with
    | none => simp [H]
    | some user =>
      by_cases he : user.Name = "" ∨ user.Email = "" ∨ user.Password = ""
      · simp [he, H]
      · simp [he, H, initDB]

/-- With no row in the soft-delete scope `fetchUsers` returns the nil slice. -/
theorem fetchUsers_nil (t : Table) (h : ∀ r ∈ t.rows, r.DeletedAt ≠ none) :
    fetchUsers initDB t = Slice.nil := by
  have hfilter : t.rows.filter User.live = [] := by
    rw [List.filter_eq_nil_iff]
    intro r hr
    simpa [User.live] using h r hr
  rw [fetchUsers_eq_foldl, initDB_Find, hfilter]
  rfl

/-- A `deleteUser` whose `id` selects no row in the soft-delete scope marks every
row deleted. -/
theorem deleteUser_blank_key_marks_all (t : Table) (id : String) (now : Nat)
    (h : ∀ r ∈ t.rows, r.DeletedAt = none → (condition id).holds r = false) :
    ∀ r ∈ (deleteUser initDB t id now).rows, r.DeletedAt ≠ none := by
  intro r hr
  rw [deleteUser_rows, First_not_found initDB t {} id h, List.mem_map] at hr
  obtain ⟨r0, _, hr0⟩ := hr
  by_cases hl : r0.live = true
  · simp only [hl, beq_self_eq_true, Bool.true_or, Bool.and_self, if_true] at hr0
    rw [← hr0]
    simp
  · simp only [hl, Bool.false_and, Bool.false_eq_true, if_false] at hr0
    rw [← hr0]
    simpa [User.live] using hl

/-! ## The schema constraints are an invariant -/

theorem insertRow_perm (u : User) (rows : List User) : (insertRow u rows).Perm (u :: rows) := by
  induction rows with
  | nil => exact List.Perm.refl _
  | cons r rs ih =>
    unfold insertRow
    by_cases h : u.rowid < r.rowid
    · rw [if_pos h]
    · rw [if_neg h]
      exact (List.Perm.cons r ih).trans (List.Perm.swap u r rs)

theorem Create_valid (s : DB) (t : Table) (value : User) (hv : t.Valid) :
    (s.Create t value).2.1.Valid := by
  unfold DB.Create
  by_cases hs : s.Error.isSome = true
  · rw [if_pos hs]; exact hv
  · rw [if_neg hs]
    by_cases hf : value.ID = 0 ∧ t.full = true
    · rw [if_pos hf]; exact hv
    · rw [if_neg hf]
      by_cases hk : t.rows.any (fun r => r.ID == if value.ID = 0 then nextID t else value.ID) = true
      · simp only [hk, if_true]; exact hv
      · by_cases he : t.rows.any (fun r => r.Email == value.Email) = true
        · simp only [hk, he, if_true, if_false, Bool.false_eq_true]; exact hv
        · simp only [hk, he, if_false, Bool.false_eq_true]
          have hperm := insertRow_perm
            { value with ID := if value.ID = 0 then nextID t else value.ID } t.rows
          have hk2 : ∀ r ∈ t.rows, r.ID ≠ (if value.ID = 0 then nextID t else value.ID) := by
            intro r hr heq
            apply hk
            rw [List.any_eq_true]
            exact ⟨r, hr, by simpa using heq⟩
          have he2 : ∀ r ∈ t.rows, r.Email ≠ value.Email := by
            intro r hr heq
            apply he
            rw [List.any_eq_true]
            exact ⟨r, hr, by simpa using heq⟩
          refine ⟨?_, ?_, ?_⟩
          · intro r hr
            rcases List.mem_cons.mp (hperm.mem_iff.mp hr) with h | h
            · subst h
              by_cases h0 : value.ID = 0
              · simp [h0, nextID]
              · simp [h0]
            · exact hv.1 r h
          · rw [(hperm.map User.ID).nodup_iff, List.map_cons, List.nodup_cons]
            refine ⟨?_, hv.2.1⟩
            intro hmem
            obtain ⟨r, hr, hrid⟩ := List.mem_map.mp hmem
            exact hk2 r hr hrid
          · rw [(hperm.map User.Email).nodup_iff, List.map_cons, List.nodup_cons]
            refine ⟨?_, hv.2.2⟩
            intro hmem
            obtain ⟨r, hr, hre⟩ := List.mem_map.mp hmem
            exact he2 r hr hre

theorem Valid.map_rows (t : Table) (f : User → User) (hv : t.Valid)
    (hID : ∀ r, (f r).ID = r.ID) (hEmail : ∀ r, (f r).Email = r.Email) :
    Table.Valid { t with rows := t.rows.map f } := by
  have h1 : (t.rows.map f).map User.ID = t.rows.map User.ID := by
    rw [List.map_map]
    exact List.map_congr_left (fun r _ => hID r)
  have h2 : (t.rows.map f).map User.Email = t.rows.map User.Email := by
    rw [List.map_map]
    exact List.map_congr_left (fun r _ => hEmail r)
  refine ⟨?_, ?_, ?_⟩
  · intro r hr
    obtain ⟨r0, hr0, h0⟩ := List.mem_map.mp hr
    rw [← h0, hID]
    exact hv.1 r0 hr0
  · show ((t.rows.map f).map User.ID).Nodup
    rw [h1]; exact hv.2.1
  · show ((t.rows.map f).map User.Email).Nodup
    rw [h2]; exact hv.2.2

theorem Delete_valid (s : DB) (t : Table) (value : User) (now : Nat) (hv : t.Valid) :
    (s.Delete t value now).2.Valid := by
  unfold DB.Delete
  by_cases hs : s.Error.isSome = true
  · rw [if_pos hs]; exact hv
  · rw [if_neg hs]
    apply Valid.map_rows t _ hv
    · intro r; dsimp only; split <;> rfl
    · intro r; dsimp only; split <;> rfl

theorem Save_valid (s : DB) (t : Table) (value : User) (hv : t.Valid) :
    (s.Save t value).2.1.Valid := by
  unfold DB.Save
  by_cases hs : s.Error.isSome = true
  · rw [if_pos hs]; exact hv
  · rw [if_neg hs]
    by_cases h0 : value.ID = 0
    · rw [if_pos h0]; exact Create_valid s t value hv
    · rw [if_neg h0]
      dsimp only
      by_cases hn : (t.rows.filter (fun r => r.live && r.ID == value.ID)).length = 0
      · rw [if_pos hn]; exact Create_valid s t value hv
      · rw [if_neg hn]
        by_cases hc : t.rows.any (fun r => r.Email == value.Email && r.ID != value.ID) = true
        · rw [if_pos hc]; exact hv
        · rw [if_neg hc]
          have hfree : ∀ r ∈ t.rows, r.ID ≠ value.ID → r.Email ≠ value.Email := by
            intro r hr hid he
            apply hc
            rw [List.any_eq_true]
            exact ⟨r, hr, by simp [he, hid]⟩
          have hID : ∀ r : User,
              (if (r.live && r.ID == value.ID) = true then value else r).ID = r.ID := by
            intro r
            split
            · rename_i h
              simp only [Bool.and_eq_true, beq_iff_eq] at h
              exact h.2.symm
            · rfl
          have hrows : t.rows.Nodup := List.Nodup.of_map User.ID hv.2.1
          refine ⟨?_, ?_, ?_⟩
          · intro r hr
            obtain ⟨r0, hr0, hr0r⟩ := List.mem_map.mp hr
            rw [← hr0r, hID]
            exact hv.1 r0 hr0
          · show ((t.rows.map _).map User.ID).Nodup
            rw [List.map_map]
            have hcol : t.rows.map
                (User.ID ∘ fun r => if (r.live && r.ID == value.ID) = true then value else r) =
                t.rows.map User.ID := List.map_congr_left (fun r _ => hID r)
            rw [hcol]
            exact hv.2.1
          · show ((t.rows.map _).map User.Email).Nodup
            rw [List.map_map]
            apply List.Nodup.map_on _ hrows
            intro x hx y hy hxy
            simp only [Function.comp] at hxy
            by_cases hhx : (x.live && x.ID == value.ID) = true
            · by_cases hhy : (y.live && y.ID == value.ID) = true
              · simp only [Bool.and_eq_true, beq_iff_eq] at hhx hhy
                exact Valid.row_of_ID t hv x y hx hy (hhx.2.trans hhy.2.symm)
              · rw [if_pos hhx, if_neg hhy] at hxy
                simp only [Bool.and_eq_true, beq_iff_eq] at hhx
                by_cases hyid : y.ID = value.ID
                · exact Valid.row_of_ID t hv x y hx hy (hhx.2.trans hyid.symm)
                · exact absurd hxy.symm (hfree y hy hyid)
            · by_cases hhy : (y.live && y.ID == value.ID) = true
              · rw [if_neg hhx, if_pos hhy] at hxy
                simp only [Bool.and_eq_true, beq_iff_eq] at hhy
                by_cases hxid : x.ID = value.ID
                · exact Valid.row_of_ID t hv x y hx hy (hxid.trans hhy.2.symm)
                · exact absurd hxy (hfree x hx hxid)
              · rw [if_neg hhx, if_neg hhy] at hxy
                exact List.inj_on_of_nodup_map hv.2.2 hx hy hxy

/-- The schema constraints hold on the table of a fresh database file and are
kept by every handler that writes. -/
theorem handlers_keep_valid (db : DB) (t : Table) (c : Context) (id : String) (now : Nat)
    (hv : t.Valid) :
    emptyTable.Valid ∧ (createUser db t c).1.Valid ∧ (updateUser db t c id).1.Valid ∧
    (deleteUser db t id now).Valid := by
  refine ⟨by decide, ?_, ?_, ?_⟩
  · unfold createUser
    split
    · exact hv
    · split
      · exact hv
      · split
        · exact hv
        · dsimp only
          split <;> exact Create_valid db t _ hv
  · unfold updateUser
    split
    · exact hv
    · dsimp only
      split <;> exact Save_valid db t _ hv
  · unfold deleteUser
    dsimp only
    split <;> exact Delete_valid db t _ now hv

/-! ## Theorems -/

/-- C2: a create request whose Content-Type header is not `application/json`
is answered 400 with the content-type message, whatever its body, and the table
is the one before the request. -/
theorem createUser_rejects_content_type (db : DB) (t : Table) (c : Context)
    (h : c.contentType ≠ "application/json") :
    createUser db t c =
      (t, ⟨400, H "error" "Invalid content type. Only application/json is accepted"⟩) := by
  unfold createUser
  rw [if_pos h]

theorem createUser_rejects_content_type_witness :
    createUser initDB twoUsers { contentType := "text/plain", body := some ann } =
      (twoUsers, ⟨400, H "error" "Invalid content type. Only application/json is accepted"⟩) :=
  createUser_rejects_content_type initDB twoUsers { contentType := "text/plain", body := some ann }
    (by decide)

/-- C3 as amended: a JSON create request whose body decodes into a `User` that
has an empty name, email or password (a missing key decodes to the empty
string) is answered 400 with the required-fields message and the table is the
one before the request. -/
theorem createUser_rejects_empty_field (db : DB) (t : Table) (c : Context) (user : User)
    (hct : c.contentType = "application/json") (hbody : c.body = some user)
    (hempty : user.Name = "" ∨ user.Email = "" ∨ user.Password = "") :
    createUser db t c = (t, ⟨400, H "error" "All fields are required"⟩) := by
  unfold createUser
  rw [if_neg (not_not.mpr hct), hbody]
  simp only [if_pos hempty]

theorem createUser_rejects_empty_field_witness :
    createUser initDB twoUsers (jsonRequest { Name := "Zed", Email := "", Password := "z" }) =
      (twoUsers, ⟨400, H "error" "All fields are required"⟩) :=
  createUser_rejects_empty_field initDB twoUsers
    (jsonRequest { Name := "Zed", Email := "", Password := "z" })
    { Name := "Zed", Email := "", Password := "z" } rfl rfl (Or.inr (Or.inl rfl))

/-- C3 as stated fails: the body `{"name": 1}` is well-formed JSON in which
`email` and `password` are missing; it does not decode into a `User`, whatever
the reading of time strings, and the request is answered 400
`Invalid request body`, not `All fields are required`. -/
theorem createUser_undecodable_body_is_invalid :
    mistypedRequest.contentType = "application/json" ∧
    mistypedRequest.body = some mistypedBody ∧
    mistypedBody.member "email" = none ∧
    mistypedBody.member "password" = none ∧
    (∀ parseTime : String → Option Nat,
      createUser initDB twoUsers (mistypedRequest.toContext parseTime) =
        (twoUsers, ⟨400, H "error" "Invalid request body"⟩)) ∧
    H "error" "Invalid request body" ≠ H "error" "All fields are required" := by
  refine ⟨rfl, rfl, rfl, rfl, fun _ => rfl, ?_⟩
  simp [H]

/-- C6: the result of `fetchUsers` has one entry per user the datastore returns,
in the same order; entry `i` has the ID, name and email of user `i`; and the
result is the same whatever passwords the stored users have. -/
theorem fetchUsers_projects_users (db : DB) (t : Table) :
    (fetchUsers db t).toList.length = (db.Find t).2.length ∧
    (∀ i : Nat, ∀ user : User, (db.Find t).2[i]? = some user →
      ∃ r : UserResponse, (fetchUsers db t).toList[i]? = some r ∧
        r.ID = user.ID ∧ r.Name = user.Name ∧ r.Email = user.Email) ∧
    (∀ f : String → String,
      fetchUsers db { t with rows := t.rows.map (fun u => { u with Password := f u.Password }) } =
        fetchUsers db t) := by
  refine ⟨?_, ?_, ?_⟩
  · rw [fetchUsers_toList, List.length_map]
  · intro i user hi
    refine ⟨user.toResponse, ?_, rfl, rfl, rfl⟩
    rw [fetchUsers_toList, List.getElem?_map, hi]
    rfl
  · intro f
    rw [fetchUsers_eq_foldl, fetchUsers_eq_foldl, Find_map_password]

/-- C8: when `id` names the primary key of a stored user that is not deleted,
then on the table left by `deleteUser` the lookup `fetchUserByID` for `id`
returns the zero-valued `UserResponse` and no entry of `fetchUsers` has that
user's ID. -/
theorem deleteUser_then_absent (t : Table) (id : String) (now : Nat) (u : User)
    (hu : u ∈ t.rows) (hlive : u.DeletedAt = none) (hid : primaryKey id = some u.ID) :
    fetchUserByID initDB (deleteUser initDB t id now) id = { ID := 0, Name := "", Email := "" } ∧
    ∀ r ∈ (fetchUsers initDB (deleteUser initDB t id now)).toList, r.ID ≠ u.ID := by
  have hmark := deleteUser_marks t id now u hu hlive hid
  constructor
  · unfold fetchUserByID
    rw [First_not_found_key initDB _ {} id u.ID hid]
    · rfl
    · intro r hr hnone hrid
      exact hmark r hr (Or.inl hrid) hnone
  · intro r hr
    rw [fetchUsers_toList, initDB_Find, List.map_map, List.mem_map] at hr
    obtain ⟨r0, hr0, hrr⟩ := hr
    rw [List.mem_filter] at hr0
    have hlive0 : r0.DeletedAt = none := by simpa [User.live] using hr0.2
    intro hrid
    by_cases hlt : r0.ID < rowidLimit
    · apply hmark r0 hr0.1 _ hlive0
      left
      rw [← hrid, ← hrr]
      simp [readRow, hlt, User.toResponse]
    · apply hmark r0 hr0.1 _ hlive0
      right
      rw [← hrid, ← hrr]
      simp [readRow, hlt, User.toResponse]

theorem deleteUser_then_absent_witness :
    fetchUserByID initDB (deleteUser initDB twoUsers "2" 7) "2" =
      { ID := 0, Name := "", Email := "" } ∧
    ∀ r ∈ (fetchUsers initDB (deleteUser initDB twoUsers "2" 7)).toList, r.ID ≠ bob.ID :=
  deleteUser_then_absent twoUsers "2" 7 bob (by decide) rfl (by decide)

/-- C7: for a stored user `u` that is not deleted, named by `id`, and any update
payload that decodes, `updateUser` leaves the table unchanged (another row
holds the new email) or replaces the name and email of the row of `u` and
nothing else: it does the latter whenever no other row holds the new email;
the ID and the password of every row, the row of `u` included, are those
before the call whatever password the payload carries; and every row of
another user is unchanged. -/
theorem updateUser_changes_name_and_email_only (t : Table) (c : Context) (id : String)
    (u newUser : User) (hv : t.Valid) (hu : u ∈ t.rows) (hlive : u.DeletedAt = none)
    (hid : primaryKey id = some u.ID) (hbody : c.body = some newUser) :
    ((updateUser initDB t c id).1 = t ∨
      (updateUser initDB t c id).1 = { t with rows := t.rows.map (fun r =>
        if r.ID = u.ID then { r with Name := newUser.Name, Email := newUser.Email } else r) }) ∧
    ((∀ r ∈ t.rows, r.ID ≠ u.ID → r.Email ≠ newUser.Email) →
      (updateUser initDB t c id).1 = { t with rows := t.rows.map (fun r =>
        if r.ID = u.ID then { r with Name := newUser.Name, Email := newUser.Email } else r) }) ∧
    (updateUser initDB t c id).1.rows.map User.ID = t.rows.map User.ID ∧
    (updateUser initDB t c id).1.rows.map User.Password = t.rows.map User.Password ∧
    (∀ r ∈ (updateUser initDB t c id).1.rows, r.ID = u.ID → r.Password = u.Password) ∧
    (updateUser initDB t c id).1.rows.filter (fun r => r.ID != u.ID) =
      t.rows.filter (fun r => r.ID != u.ID) := by
  have htab := updateUser_table t c id u newUser hv hu hlive hid hbody
  have hcases : (updateUser initDB t c id).1 = t ∨
      (updateUser initDB t c id).1 = { t with rows := t.rows.map (fun r =>
        if r.ID = u.ID then { r with Name := newUser.Name, Email := newUser.Email } else r) } := by
    rw [htab]
    by_cases hconf : t.rows.any (fun r => r.Email == newUser.Email && r.ID != u.ID) = true
    · left; rw [if_pos hconf]
    · right; rw [if_neg hconf]
  have hpw : ∀ r ∈ (updateUser initDB t c id).1.rows, r.ID = u.ID → r.Password = u.Password := by
    intro r hr hrid
    rcases hcases with h | h
    · rw [h] at hr
      rw [Valid.row_of_ID t hv r u hr hu hrid]
    · rw [h, List.mem_map] at hr
      obtain ⟨r0, hr0, hrr⟩ := hr
      by_cases h0 : r0.ID = u.ID
      · rw [if_pos h0] at hrr
        rw [← hrr, ← Valid.row_of_ID t hv r0 u hr0 hu h0]
      · rw [if_neg h0] at hrr
        rw [← hrr, Valid.row_of_ID t hv r0 u hr0 hu (hrr ▸ hrid)]
  refine ⟨hcases, ?_, ?_, ?_, hpw, ?_⟩
  · intro hfree
    rw [htab, if_neg]
    rw [List.any_eq_true]
    rintro ⟨r, hr, hp⟩
    simp only [Bool.and_eq_true, beq_iff_eq, bne_iff_ne, ne_eq] at hp
    exact hfree r hr hp.2 hp.1
  · rcases hcases with h | h
    · rw [h]
    · rw [h]; exact map_rename_ID t.rows u.ID newUser.Name newUser.Email
  · rcases hcases with h | h
    · rw [h]
    · rw [h]; exact map_rename_Password t.rows u.ID newUser.Name newUser.Email
  · rcases hcases with h | h
    · rw [h]
    · rw [h]; exact filter_rename_others t.rows u.ID newUser.Name newUser.Email

theorem updateUser_changes_name_and_email_only_witness :
    (updateUser initDB twoUsers (jsonRequest zed) "2").1 =
      { rows := [ann, { bob with Name := "Zed", Email := "zed@x.com" }], seq := 2 } ∧
    (updateUser initDB twoUsers (jsonRequest zed) "2").1.rows.map User.Password =
      twoUsers.rows.map User.Password :=
  ⟨(updateUser_changes_name_and_email_only twoUsers (jsonRequest zed) "2" bob zed
      (by decide) (by decide) rfl (by decide) rfl).2.1 (by decide),
    (updateUser_changes_name_and_email_only twoUsers (jsonRequest zed) "2" bob zed
      (by decide) (by decide) rfl (by decide) rfl).2.2.2.1⟩

/-- C4 as amended: on any table, a JSON create request whose payload has a
non-empty name, email and password, carries no `DeletedAt`, has an email no
stored row holds, and either carries no `ID` while the table has not used the
largest rowid, or carries an `ID` below 2^63 that no stored row has, is
answered 200 `User created`, and `fetchUsers` on the table it leaves has an
entry with that name and email and a nonzero ID. -/
theorem createUser_then_listed (t : Table) (c : Context) (user : User)
    (hct : c.contentType = "application/json") (hbody : c.body = some user)
    (hname : user.Name ≠ "") (hemail : user.Email ≠ "") (hpw : user.Password ≠ "")
    (hdel : user.DeletedAt = none)
    (hid : (user.ID = 0 ∧ t.full = false) ∨
      (user.ID ≠ 0 ∧ user.ID < rowidLimit ∧ ∀ r ∈ t.rows, r.ID ≠ user.ID))
    (hfresh : ∀ r ∈ t.rows, r.Email ≠ user.Email) :
    (createUser initDB t c).2.status = 200 ∧
    (createUser initDB t c).2.body = H "message" "User created" ∧
    ∃ r ∈ (fetchUsers initDB (createUser initDB t c).1).toList,
      r.Name = user.Name ∧ r.Email = user.Email ∧ r.ID ≠ 0 := by
  have hid2 : (user.ID = 0 ∧ t.full = false) ∨ (user.ID ≠ 0 ∧ ∀ r ∈ t.rows, r.ID ≠ user.ID) := by
    rcases hid with h | h
    · exact Or.inl h
    · exact Or.inr ⟨h.1, h.2.2⟩
  have hlt : (if user.ID = 0 then nextID t else user.ID) < rowidLimit := by
    rcases hid with ⟨h0, hnf⟩ | ⟨hne, hlt, _⟩
    · rw [if_pos h0]; exact nextID_lt t hnf
    · rw [if_neg hne]; exact hlt
  have hne0 : (if user.ID = 0 then nextID t else user.ID) ≠ 0 := by
    by_cases h0 : user.ID = 0
    · rw [if_pos h0]; exact Nat.succ_ne_zero _
    · rw [if_neg h0]; exact h0
  rw [createUser_table t c user hct hbody hname hemail hpw hid2 hfresh]
  refine ⟨rfl, rfl,
    ({ user with ID := if user.ID = 0 then nextID t else user.ID } : User).toResponse,
    ?_, rfl, rfl, hne0⟩
  rw [fetchUsers_toList, initDB_Find, List.map_map]
  apply List.mem_map.mpr
  refine ⟨{ user with ID := if user.ID = 0 then nextID t else user.ID }, ?_, ?_⟩
  · rw [List.mem_filter]
    exact ⟨(mem_insertRow _ _ _).mpr (Or.inl rfl), by simp [User.live, hdel]⟩
  · simp only [Function.comp, readRow, hlt, if_true]

theorem createUser_then_listed_witness :
    ((createUser initDB twoUsers (jsonRequest zed)).2.status = 200 ∧
      (createUser initDB twoUsers (jsonRequest zed)).2.body = H "message" "User created" ∧
      ∃ r ∈ (fetchUsers initDB (createUser initDB twoUsers (jsonRequest zed)).1).toList,
        r.Name = zed.Name ∧ r.Email = zed.Email ∧ r.ID ≠ 0) ∧
    ((createUser initDB fullTable (jsonRequest zedFreshID)).2.status = 200 ∧
      (createUser initDB fullTable (jsonRequest zedFreshID)).2.body =
        H "message" "User created" ∧
      ∃ r ∈ (fetchUsers initDB (createUser initDB fullTable (jsonRequest zedFreshID)).1).toList,
        r.Name = zedFreshID.Name ∧ r.Email = zedFreshID.Email ∧ r.ID ≠ 0) :=
  ⟨createUser_then_listed twoUsers (jsonRequest zed) zed rfl rfl (by decide) (by decide)
      (by decide) rfl (Or.inl ⟨rfl, by decide⟩) (by decide),
    createUser_then_listed fullTable (jsonRequest zedFreshID) zedFreshID rfl rfl (by decide)
      (by decide) (by decide) rfl (Or.inr ⟨by decide, by decide, by decide⟩) (by decide)⟩

/-- C4 as stated fails: a JSON create request with non-empty name, email and
password and an email no stored row holds, whose body also carries the key
`DeletedAt`, is answered 200 `User created`, and `fetchUsers` on the table it
leaves has no entry with that name and email. -/
theorem createUser_deleted_payload_not_listed :
    (jsonRequest zedDeleted).contentType = "application/json" ∧
    (jsonRequest zedDeleted).body = some zedDeleted ∧
    zedDeleted.Name ≠ "" ∧ zedDeleted.Email ≠ "" ∧ zedDeleted.Password ≠ "" ∧
    (∀ r ∈ twoUsers.rows, r.Email ≠ zedDeleted.Email) ∧
    (createUser initDB twoUsers (jsonRequest zedDeleted)).2.status = 200 ∧
    (createUser initDB twoUsers (jsonRequest zedDeleted)).2.body = H "message" "User created" ∧
    ¬ ∃ r ∈
        (fetchUsers initDB (createUser initDB twoUsers (jsonRequest zedDeleted)).1).toList,
      r.Name = zedDeleted.Name ∧ r.Email = zedDeleted.Email ∧ r.ID ≠ 0 := by
  refine ⟨rfl, rfl, by decide, by decide, by decide, by decide, rfl, rfl, ?_⟩
  decide

/-- A table outside the amended C4: once the largest rowid has been used a
payload without `ID` is not inserted; the request is still answered 200
`User created` and nothing is listed for it. -/
theorem createUser_full_table_not_listed :
    fullTable.full = true ∧
    createUser initDB fullTable (jsonRequest zed) =
      (fullTable, ⟨200, H "message" "User created"⟩) ∧
    ¬ ∃ r ∈ (fetchUsers initDB (createUser initDB fullTable (jsonRequest zed)).1).toList,
      r.Name = zed.Name ∧ r.Email = zed.Email := by
  refine ⟨by decide, rfl, ?_⟩
  decide

/-- A payload outside the amended C4: an `ID` of 2^63 is stored as a negative
rowid, the row cannot be read back, and the list shows a zero-valued entry in
its place. -/
theorem createUser_high_ID_not_listed :
    (createUser initDB twoUsers (jsonRequest zedHighID)).1.rows = [zedHighID, ann, bob] ∧
    fetchUsers initDB (createUser initDB twoUsers (jsonRequest zedHighID)).1 =
      Slice.mk [{ ID := 0, Name := "", Email := "" }, ann.toResponse, bob.toResponse] := by
  refine ⟨by decide, by decide⟩

/-- A second payload outside the amended C4: with the key `ID` set to the key of
a stored row the INSERT fails, the request is still answered 200
`User created`, and nothing is listed for it. -/
theorem createUser_stored_ID_not_listed :
    createUser initDB twoUsers (jsonRequest zedWithID) =
      (twoUsers, ⟨200, H "message" "User created"⟩) ∧
    ¬ ∃ r ∈ (fetchUsers initDB (createUser initDB twoUsers (jsonRequest zedWithID)).1).toList,
      r.Name = zedWithID.Name ∧ r.Email = zedWithID.Email := by
  refine ⟨rfl, ?_⟩
  decide

/-- C1: evaluation at the failing input. With `ann` stored and not deleted, a
JSON create request with a non-empty name and password and the email of `ann`
makes `Create` report the unique-index failure on the handle it returns,
leaves the table as it was, and is answered 200 `User created`, not 400
`Failed to create user`. -/
theorem createUser_duplicate_email_answers_created :
    ann ∈ twoUsers.rows ∧ ann.DeletedAt = none ∧ zedAsAnn.Email = ann.Email ∧
    (initDB.Create twoUsers zedAsAnn).1.Error = some "UNIQUE constraint failed: users.email" ∧
    initDB.Error = none ∧
    createUser initDB twoUsers (jsonRequest zedAsAnn) =
      (twoUsers, ⟨200, H "message" "User created"⟩) := by
  refine ⟨by decide, rfl, rfl, rfl, rfl, rfl⟩

/-- C5: evaluation at the failing input. On a table with no user `fetchUsers`
returns the nil slice and the list handler answers 200 with the body `null`,
not the empty array. -/
theorem getUsers_empty_table_is_null :
    fetchUsers initDB emptyTable = Slice.nil ∧
    (getUsersHandler initDB emptyTable).status = 200 ∧
    (getUsersHandler initDB emptyTable).body = JSON.null ∧
    (getUsersHandler initDB emptyTable).body ≠ JSON.arr [] := by
  refine ⟨rfl, rfl, rfl, ?_⟩
  intro h
  exact JSON.noConfusion h

/-- C10: evaluation at the failing input. With `ann` and `bob` stored and no
row of key 999, `deleteUser` for `999` marks both rows deleted: `fetchUsers`
returns both users before the call and the nil slice after it. -/
theorem deleteUser_unknown_id_deletes_all :
    (∀ r ∈ twoUsers.rows, r.DeletedAt = none → primaryKey "999" ≠ some r.ID) ∧
    fetchUsers initDB twoUsers = Slice.mk [ann.toResponse, bob.toResponse] ∧
    deleteUser initDB twoUsers "999" 7 =
      { rows := [{ ann with DeletedAt := some 7 }, { bob with DeletedAt := some 7 }], seq := 2 } ∧
    fetchUsers initDB (deleteUser initDB twoUsers "999" 7) = Slice.nil ∧
    (deleteUserHandler initDB twoUsers "999" 7).2.status = 200 := by
  refine ⟨by decide, rfl, rfl, rfl, rfl⟩

end GoCrudHtmx
